import Mathlib

/-!
# BMI sensor streaming client: session state, command handling, receive loop

A shallow embedding of `src/main/blink_example_main.c` (the TCP client task, the
command handler, `send_all` and the sensor task) together with the properties
proved about it.

Conventions of the embedding

* A C string is the list of its characters before the terminating NUL.
* The shared globals `Fodr`, `sockfd`, `tcp_connected`, `sending` are the fields
  of `Session`; every function takes the session and returns the new one.
* Calls into the environment (`send`, `recv`, `socket`, `connect`, `bmi_read`)
  are replaced by their return values, supplied as arguments.
-/

namespace BmiTcp

/-! ## Data model -/

/-- The two `esp_err_t` values the program produces. -/
inductive esp_err_t where
  | ESP_OK
  | ESP_FAIL
deriving DecidableEq

/-- The globals of the program: `Fodr` (uint32_t), `sockfd` (int),
`tcp_connected` and `sending` (volatile bool). -/
structure Session where
  Fodr : Nat
  sockfd : Int
  tcp_connected : Bool
  sending : Bool
deriving DecidableEq

/-- The initial values of the globals: `Fodr = 400`, `sockfd = -1`,
`tcp_connected = false`, `sending = false`. -/
def init_state : Session :=
  { Fodr := 400, sockfd := -1, tcp_connected := false, sending := false }

/-! ## C library functions used by the program -/

/-- The NUL character that terminates a C string. -/
def NUL : Char := Char.ofNat 0

/-- C `isspace` in the "C" locale: space, `\t`, `\n`, `\v`, `\f`, `\r`. -/
def isspace (c : Char) : Bool :=
  c == ' ' || c == '\t' || c == '\n' || c == Char.ofNat 11 || c == Char.ofNat 12 || c == '\r'

/-- C `isdigit`: the characters `0` to `9`. -/
def isdigit (c : Char) : Bool :=
  decide (48 ≤ c.toNat) && decide (c.toNat ≤ 57)

/-- The digit loop of `strtol` in base 10: accumulate digits until the first
character that is not one. -/
def scan_digits (acc : Nat) : List Char → Nat
  | [] => acc
  | c :: cs => if isdigit c then scan_digits (acc * 10 + (c.toNat - 48)) cs else acc

/-- `LONG_MAX` of a 64-bit `long`. -/
def LONG_MAX : Int := 9223372036854775807

/-- `LONG_MIN` of a 64-bit `long`. -/
def LONG_MIN : Int := -9223372036854775808

/-- C `strtol(s, NULL, 10)`: skip leading white space, read an optional sign, read
the decimal digits, and saturate at `LONG_MAX` / `LONG_MIN`.  No digits gives 0. -/
def strtol (s : List Char) : Int :=
  match s.dropWhile isspace with
  | [] => 0
  | c :: t =>
    if c = '-' then max LONG_MIN (-(scan_digits 0 t : Int))
    else if c = '+' then min LONG_MAX (scan_digits 0 t : Int)
    else min LONG_MAX (scan_digits 0 (c :: t) : Int)

/-- The conversion `(int) x` of a `long`: the low 32 bits, read in two's complement. -/
def int_cast (x : Int) : Int :=
  (x + 2147483648) % 4294967296 - 2147483648

/-- C `atoi(s)`, which the C library defines as `(int) strtol(s, NULL, 10)`.  For a
numeral whose value fits an `int` the result is that value.  For a value that
does not fit, C leaves the result undefined; here `long` has 64 bits, `strtol`
saturates and the conversion to `int` keeps the low 32 bits, so the value
wraps modulo 2^32. -/
def atoi (s : List Char) : Int :=
  int_cast (strtol s)

/-- The `while (total < len)` loop of `send_all`.  `sends` lists the return values
of the successive `send()` calls; `wire` collects the bytes the socket accepted.
A negative return value ends the loop with `ESP_FAIL`; the result is `none` when
the loop would need a further `send()` and the list has run out. -/
def send_loop (buf : List Char) : Nat → List Char → List Int → Option (esp_err_t × List Char)
  | total, wire, [] =>
    if total < buf.length then none else some (esp_err_t.ESP_OK, wire)
  | total, wire, sent :: rest =>
    if total < buf.length then
      if sent < 0 then some (esp_err_t.ESP_FAIL, wire)
      else send_loop buf (total + sent.toNat) (wire ++ (buf.drop total).take sent.toNat) rest
    else some (esp_err_t.ESP_OK, wire)

/-- The function `send_all(buf, len)`: fails at once, sending nothing, when
`tcp_connected` is false or `sockfd < 0`; otherwise runs the send loop.  The
result carries the status and the bytes put on the wire. -/
def send_all (st : Session) (buf : List Char) (sends : List Int) :
    Option (esp_err_t × List Char) :=
  if !st.tcp_connected then some (esp_err_t.ESP_FAIL, [])
  else if st.sockfd < 0 then some (esp_err_t.ESP_FAIL, [])
  else send_loop buf 0 [] sends

/-! ## handle_command -/

/-- The function `handle_command(cmd)`.  `cmd = none` is the NULL pointer.  The
result is the session after the call and the buffer handed to `send_all`
(`none` when `send_all` is not called).  The return value of `send_all` is
ignored by the source, so the session does not depend on it. -/
def handle_command (st : Session) : Option (List Char) → Session × Option (List Char)
  | none => (st, none)
  | some cmd =>
    if cmd.take 6 = "SRATE ".toList then
      let val := atoi (cmd.drop 6)
      if val = 100 ∨ val = 400 ∨ val = 1600 then
        ({ st with Fodr := (val % 4294967296).toNat }, some "SRATE_OK\n".toList)
      else
        (st, some "SRATE_ERR\n".toList)
    else if cmd = "START".toList then
      ({ st with sending := true }, some "STARTED\n".toList)
    else if cmd = "STOP".toList then
      ({ st with sending := false }, some "STOPPED\n".toList)
    else if cmd = "PING".toList then
      (st, some "PONG\n".toList)
    else
      (st, some "UNK_CMD\n".toList)

/-- The bytes `handle_command(cmd)` puts on the wire: what its `send_all` call
transmits in the session left by the command, given the return values of the
`send()` calls. -/
def handle_command_wire (st : Session) (cmd : Option (List Char)) (sends : List Int) :
    Option (List Char) :=
  match handle_command st cmd with
  | (_, none) => some []
  | (st', some reply) => (send_all st' reply sends).map Prod.snd

/-! ## tcp_client_task: connect, receive loop, Draining -/

/-- The C-string view of a buffer: the characters before the first NUL. -/
def cstr (buf : List Char) : List Char :=
  buf.takeWhile (fun c => c != NUL)

/-- Membership in the delimiter set `"\r\n"` passed to `strtok_r`. -/
def is_delim (c : Char) : Bool :=
  c == '\r' || c == '\n'

/-- One call of `strtok_r(.., "\r\n", &saveptr)` on the rest of the string: skip
leading delimiters; `none` (NULL) when nothing is left; otherwise the token runs
to the next delimiter and `saveptr` is left just after that delimiter. -/
def strtok_r (s : List Char) : Option (List Char × List Char) :=
  match s.dropWhile is_delim with
  | [] => none
  | c :: cs =>
    some ((c :: cs).takeWhile (fun x => !is_delim x),
          ((c :: cs).dropWhile (fun x => !is_delim x)).drop 1)

/-- The lines the `while (line)` loop passes to `handle_command`, in order.
`fuel` bounds the number of `strtok_r` calls; `none` when it does not suffice. -/
def rx_lines : Nat → List Char → Option (List (List Char))
  | 0, _ => none
  | fuel + 1, s =>
    match strtok_r s with
    | none => some []
    | some (line, rest) => (rx_lines fuel rest).map (fun ls => line :: ls)

/-- The lines of the C string `s`, as the `while (line)` loop dispatches them; the
number of `strtok_r` calls never exceeds the length of `s` plus one. -/
def line_loop (s : List Char) : List (List Char) :=
  (rx_lines (s.length + 1) s).getD []

/-- The lines dispatched for one successful `recv` that stored `bytes` in `rxbuf`:
the buffer is NUL-terminated after the bytes read and tokenised from its start. -/
def read_lines (bytes : List Char) : List (List Char) :=
  line_loop (cstr bytes)

/-- The lines dispatched over successive reads: every read is tokenised on its own,
in a buffer that is overwritten by the next `recv`. -/
def dispatched (reads : List (List Char)) : List (List Char) :=
  reads.flatMap read_lines

/-- The read ends in a line-ending character. -/
def ends_line (r : List Char) : Bool :=
  match r.getLast? with
  | some c => is_delim c
  | none => false

/-- The read begins with a line-ending character. -/
def starts_line (r : List Char) : Bool :=
  match r with
  | c :: _ => is_delim c
  | [] => false

/-- Every cut between two successive reads has a line-ending character just
before it or just after it. -/
def line_aligned : List (List Char) → Bool
  | [] => true
  | [_] => true
  | a :: b :: rest => (ends_line a || starts_line b) && line_aligned (b :: rest)

/-- Running `handle_command` on each line in turn: the final session and the
reply buffers handed to `send_all`, in order. -/
def handle_lines (st : Session) : List (List Char) → Session × List (List Char)
  | [] => (st, [])
  | line :: rest =>
    let o := handle_command st (some line)
    let r := handle_lines o.1 rest
    (r.1, o.2.toList ++ r.2)

/-- What one `recv` call returned: its return value `r`, the bytes it stored in
`rxbuf` and the value of `errno` after it. -/
structure RecvResult where
  r : Int
  data : List Char
  errno : Int
deriving DecidableEq

/-- The `errno` of a receive timeout (`EAGAIN`, equal to `EWOULDBLOCK`). -/
def EAGAIN : Int := 11

/-- The `errno` of a connection reset by the peer. -/
def ECONNRESET : Int := 104

/-- The result of one iteration of the receive loop. -/
structure RxOutcome where
  st : Session
  lines : List (List Char)
  replies : List (List Char)
  exit : Bool
deriving DecidableEq

/-- The body of `while (tcp_connected)`: for `r > 0` the lines of the buffer are
handled; for `r == 0` the loop is left by `break`; for `r < 0` nothing is done,
whatever `errno` is. -/
def rx_iteration (st : Session) (res : RecvResult) : RxOutcome :=
  if res.r > 0 then
    let lines := read_lines (res.data.take res.r.toNat)
    let o := handle_lines st lines
    { st := o.1, lines := lines, replies := o.2, exit := false }
  else if res.r = 0 then
    { st := st, lines := [], replies := [], exit := true }
  else
    { st := st, lines := [], replies := [], exit := false }

/-- The receive loop `while (tcp_connected) { recv ... }` over the results of the
successive `recv` calls: the session it leaves, the lines it passed to
`handle_command` and the replies handed to `send_all`, in order.  The flag
tells whether the loop has ended (by `break` or because `tcp_connected` is
false); it is false when the loop is still running after the last result given. -/
def rx_loop (st : Session) : List RecvResult → RxOutcome
  | [] => { st := st, lines := [], replies := [], exit := !st.tcp_connected }
  | res :: rest =>
    if st.tcp_connected then
      let o := rx_iteration st res
      if o.exit then o
      else
        let r := rx_loop o.st rest
        { st := r.st, lines := o.lines ++ r.lines, replies := o.replies ++ r.replies,
          exit := r.exit }
    else { st := st, lines := [], replies := [], exit := true }

/-- A successful `recv` that stored `bytes`: its return value is their number. -/
def recv_ok (bytes : List Char) : RecvResult :=
  { r := bytes.length, data := bytes, errno := 0 }

/-- The connect step: `socket()` returned `s`, `connect()` returned `rc`.  Only when
`s >= 0` and `rc == 0` are `sockfd = s` and `tcp_connected = true` set. -/
def connect_step (st : Session) (s rc : Int) : Session × Bool :=
  if s < 0 then (st, false)
  else if rc != 0 then (st, false)
  else ({ st with sockfd := s, tcp_connected := true }, true)

/-- The Draining step after the receive loop: `sockfd = -1`,
`tcp_connected = false`, `sending = false`. -/
def draining (st : Session) : Session :=
  { st with sockfd := -1, tcp_connected := false, sending := false }

/-- One pass of the outer `while (1)` of `tcp_client_task`: connect, run the
receive loop on the given `recv` results, and drain once the loop has ended. -/
def tcp_client_pass (st : Session) (s rc : Int) (recvs : List RecvResult) : Session :=
  let c := connect_step st s rc
  if c.2 then
    let l := rx_loop c.1 recvs
    if l.exit then draining l.st else l.st
  else c.1

/-! ## sensor_task -/

/-- The conversion `(int16_t) x` of an `int`: reduction modulo 2^16 into
[-32768, 32767]. -/
def int16_cast (x : Int) : Int :=
  (x + 32768) % 65536 - 32768

/-- The axis decoding `(int16_t)((hi << 8) | lo)` of two raw bytes. -/
def decode_axis (lo hi : Nat) : Int :=
  int16_cast (((hi <<< 8) ||| lo : Nat) : Int)

/-- The inter-sample wait of the sampling loop in milliseconds: `1000 / Fodr`
raised to 1 when it is 0, for `Fodr > 0`; the fallback 10 for `Fodr == 0`. -/
def sample_wait_ms (Fodr : Nat) : Nat :=
  if Fodr > 0 then
    let wait_ms := 1000 / Fodr
    if wait_ms = 0 then 1 else wait_ms
  else 10

/-- The send-failure branch of `sensor_task`: `sockfd = -1`,
`tcp_connected = false`, `sending = false`. -/
def sensor_invalidate (st : Session) : Session :=
  { st with sockfd := -1, tcp_connected := false, sending := false }

/-- One cycle of `sensor_task`: `bmi` is the result of `bmi_read`, `outbuf` the
record built by `snprintf`, `sends` the return values of `send()`.  The result
is the new session, the delay before the next cycle in milliseconds (0 for
the `continue` without delay) and the bytes put on the wire. -/
def sensor_cycle (st : Session) (bmi : esp_err_t) (outbuf : List Char) (sends : List Int) :
    Option (Session × Nat × List Char) :=
  if !st.tcp_connected then some (st, 500, [])
  else if !st.sending then some (st, 200, [])
  else if bmi ≠ esp_err_t.ESP_OK then some (st, 10, [])
  else
    match send_all st outbuf sends with
    | none => none
    | some (esp_err_t.ESP_OK, wire) => some (st, sample_wait_ms st.Fodr, wire)
    | some (esp_err_t.ESP_FAIL, wire) => some (sensor_invalidate st, 0, wire)

/-! ## Reachable sessions -/

/-- The steps that change the shared session. -/
inductive Event where
  | connect (s rc : Int)
  | drain
  | sensor_send_failed
  | command (cmd : Option (List Char))
deriving DecidableEq

/-- The effect of one step on the session. -/
def step (st : Session) : Event → Session
  | Event.connect s rc => (connect_step st s rc).1
  | Event.drain => draining st
  | Event.sensor_send_failed => sensor_invalidate st
  | Event.command cmd => (handle_command st cmd).1

/-- The session reached from the initial one by a sequence of steps. -/
def run (evs : List Event) : Session :=
  evs.foldl step init_state

/-- The connection flag agrees with the presence of a socket. -/
def conn_inv (st : Session) : Prop :=
  st.tcp_connected = true ↔ 0 ≤ st.sockfd

/-- The sample rate is one of the three allowed values. -/
def rate_inv (st : Session) : Prop :=
  st.Fodr = 100 ∨ st.Fodr = 400 ∨ st.Fodr = 1600

/-! ## Properties of the sampling loop arithmetic -/

/-- Shifting a byte left by 8 and or-ing a byte in is `hi * 256 + lo`. -/
theorem shift_or_eq (lo hi : Nat) (hlo : lo < 256) : (hi <<< 8) ||| lo = hi * 256 + lo := by
  have h := Nat.mul_add_lt_is_or (i := 8) (b := lo) (by simpa using hlo) hi
  rw [Nat.shiftLeft_eq]
  have e : (2 : Nat) ^ 8 = 256 := by norm_num
  rw [e] at h ⊢
  rw [Nat.mul_comm hi 256, ← h]

/-- C8: for raw bytes `lo`, `hi`, the decoding `(int16_t)((hi << 8) | lo)` is
`hi*256 + lo` when `hi < 128` and `hi*256 + lo - 65536` otherwise, lies in
[-32768, 32767], sends (0x34, 0x12) to 4660 and (0x00, 0x80) to -32768. -/
theorem decode_axis_spec (lo hi : Nat) (hlo : lo < 256) (hhi : hi < 256) :
    decode_axis lo hi
        = (if hi < 128 then (hi : Int) * 256 + lo else (hi : Int) * 256 + lo - 65536)
      ∧ -32768 ≤ decode_axis lo hi ∧ decode_axis lo hi ≤ 32767
      ∧ decode_axis 0x34 0x12 = 4660 ∧ decode_axis 0x00 0x80 = -32768 := by
  have key : decode_axis lo hi
      = (if hi < 128 then (hi : Int) * 256 + lo else (hi : Int) * 256 + lo - 65536) := by
    unfold decode_axis int16_cast
    rw [shift_or_eq lo hi hlo]
    push_cast
    split_ifs with h <;> omega
  refine ⟨key, ?_, ?_, by decide, by decide⟩
  · rw [key]; split_ifs with h <;> omega
  · rw [key]; split_ifs with h <;> omega

/-- The decoding at the bytes (0xFF, 0x7F), the largest positive word. -/
theorem decode_axis_spec_witness :
    decode_axis 0xFF 0x7F
        = (if 0x7F < 128 then ((0x7F : Nat) : Int) * 256 + (0xFF : Nat)
            else ((0x7F : Nat) : Int) * 256 + (0xFF : Nat) - 65536)
      ∧ -32768 ≤ decode_axis 0xFF 0x7F ∧ decode_axis 0xFF 0x7F ≤ 32767
      ∧ decode_axis 0x34 0x12 = 4660 ∧ decode_axis 0x00 0x80 = -32768 :=
  decode_axis_spec 0xFF 0x7F (by decide) (by decide)

/-- C7: for a positive rate the inter-sample wait is the quotient `1000 / rate`,
raised to 1 when the quotient is 0; it is at least 1, does not increase when the
rate increases, and is 2 at rate 400, 10 at rate 100 and 1 at rate 1600. -/
theorem sample_wait_ms_spec (rate : Nat) (h : 0 < rate) :
    sample_wait_ms rate = (if 1000 / rate = 0 then 1 else 1000 / rate)
      ∧ 1 ≤ sample_wait_ms rate
      ∧ (∀ rate2, rate ≤ rate2 → sample_wait_ms rate2 ≤ sample_wait_ms rate)
      ∧ sample_wait_ms 400 = 2 ∧ sample_wait_ms 100 = 10 ∧ sample_wait_ms 1600 = 1 := by
  have form : ∀ r, 0 < r → sample_wait_ms r = (if 1000 / r = 0 then 1 else 1000 / r) := by
    intro r hr
    simp [sample_wait_ms, hr]
  refine ⟨form rate h, ?_, ?_, by decide, by decide, by decide⟩
  · rw [form rate h]
    generalize 1000 / rate = a
    split_ifs with q <;> omega
  · intro rate2 hle
    have h2 : 0 < rate2 := Nat.lt_of_lt_of_le h hle
    have hdiv : 1000 / rate2 ≤ 1000 / rate := Nat.div_le_div_left hle h
    rw [form rate h, form rate2 h2]
    generalize 1000 / rate = a at hdiv ⊢
    generalize 1000 / rate2 = b at hdiv ⊢
    split_ifs <;> omega

/-- The wait at rate 400, with the rate 1600 as the larger rate. -/
theorem sample_wait_ms_spec_witness :
    sample_wait_ms 400 = 2 ∧ sample_wait_ms 1600 ≤ sample_wait_ms 400 :=
  ⟨(sample_wait_ms_spec 400 (by decide)).2.2.2.1,
   (sample_wait_ms_spec 400 (by decide)).2.2.1 1600 (by decide)⟩

/-! ## Transport invalidation and reconnection -/

/-- Handling a command turns `sending` on only when the command is `START`. -/
theorem sending_on_only_by_start (st : Session) (cmd : Option (List Char))
    (hoff : st.sending = false) (hon : (handle_command st cmd).1.sending = true) :
    cmd = some "START".toList := by
  cases cmd with
  | none => simp [handle_command, hoff] at hon
  | some c =>
    by_cases h : c = "START".toList
    · rw [h]
    · exfalso
      unfold handle_command at hon
      simp only [] at hon
      split_ifs at hon <;> simp_all

/-- C2: from every session, the Draining step and the send-failure branch of
`sensor_task` both leave `tcp_connected = false`, `sending = false`,
`sockfd = -1`: a sampling cycle whose `send_all` fails ends in that session, and
so does a pass of `tcp_client_task` whose receive loop has ended; a successful
connect after either sets `tcp_connected = true` and leaves `sending = false`,
the receive loop is entered with `sending` still false, the sampling cycle then
sends nothing, and only a `START` command turns `sending` back on. -/
theorem invalidation_then_reconnect (st : Session) (s : Int) (hs : 0 ≤ s) :
    (draining st).tcp_connected = false ∧ (draining st).sending = false
      ∧ (draining st).sockfd = -1
      ∧ (sensor_invalidate st).tcp_connected = false ∧ (sensor_invalidate st).sending = false
      ∧ (sensor_invalidate st).sockfd = -1
      ∧ (connect_step (draining st) s 0).2 = true
      ∧ (connect_step (draining st) s 0).1.tcp_connected = true
      ∧ (connect_step (draining st) s 0).1.sending = false
      ∧ (connect_step (sensor_invalidate st) s 0).2 = true
      ∧ (connect_step (sensor_invalidate st) s 0).1.tcp_connected = true
      ∧ (connect_step (sensor_invalidate st) s 0).1.sending = false
      ∧ (∀ bmi outbuf sends, sensor_cycle (connect_step (draining st) s 0).1 bmi outbuf sends
            = some ((connect_step (draining st) s 0).1, 200, []))
      ∧ (∀ cmd, (handle_command (connect_step (draining st) s 0).1 cmd).1.sending = true →
            cmd = some "START".toList)
      ∧ (∀ outbuf sends wire, st.tcp_connected = true → st.sending = true →
            send_all st outbuf sends = some (esp_err_t.ESP_FAIL, wire) →
            sensor_cycle st esp_err_t.ESP_OK outbuf sends = some (sensor_invalidate st, 0, wire)
              ∧ ∀ st2 d w, sensor_cycle st esp_err_t.ESP_OK outbuf sends = some (st2, d, w) →
                  st2.tcp_connected = false ∧ st2.sending = false ∧ st2.sockfd = -1)
      ∧ (∀ s0 rc recvs, (connect_step st s0 rc).2 = true →
            (rx_loop (connect_step st s0 rc).1 recvs).exit = true →
            tcp_client_pass st s0 rc recvs = draining (rx_loop (connect_step st s0 rc).1 recvs).st
              ∧ (tcp_client_pass st s0 rc recvs).tcp_connected = false
              ∧ (tcp_client_pass st s0 rc recvs).sending = false
              ∧ (tcp_client_pass st s0 rc recvs).sockfd = -1)
      ∧ (tcp_client_pass (draining st) s 0 []).tcp_connected = true
      ∧ (tcp_client_pass (draining st) s 0 []).sending = false
      ∧ (tcp_client_pass (sensor_invalidate st) s 0 []).tcp_connected = true
      ∧ (tcp_client_pass (sensor_invalidate st) s 0 []).sending = false := by
  have hn : ¬ s < 0 := not_lt.mpr hs
  have e1 : connect_step (draining st) s 0
      = ({ draining st with sockfd := s, tcp_connected := true }, true) := by
    simp [connect_step, hn]
  have e2 : connect_step (sensor_invalidate st) s 0
      = ({ sensor_invalidate st with sockfd := s, tcp_connected := true }, true) := by
    simp [connect_step, hn]
  have p1 : tcp_client_pass (draining st) s 0 []
      = { draining st with sockfd := s, tcp_connected := true } := by
    unfold tcp_client_pass
    rw [e1]
    simp [rx_loop]
  have p2 : tcp_client_pass (sensor_invalidate st) s 0 []
      = { sensor_invalidate st with sockfd := s, tcp_connected := true } := by
    unfold tcp_client_pass
    rw [e2]
    simp [rx_loop]
  refine ⟨rfl, rfl, rfl, rfl, rfl, rfl, ?_, ?_, ?_, ?_, ?_, ?_, ?_, ?_, ?_, ?_, ?_, ?_, ?_, ?_⟩
  · rw [e1]
  · rw [e1]
  · rw [e1]; rfl
  · rw [e2]
  · rw [e2]
  · rw [e2]; rfl
  · intro bmi outbuf sends
    rw [e1]
    simp [sensor_cycle, draining]
  · intro cmd hon
    refine sending_on_only_by_start _ cmd ?_ hon
    rw [e1]; rfl
  · intro outbuf sends wire hc hsnd hfail
    have hcy : sensor_cycle st esp_err_t.ESP_OK outbuf sends
        = some (sensor_invalidate st, 0, wire) := by
      unfold sensor_cycle
      simp [hc, hsnd, hfail]
    refine ⟨hcy, ?_⟩
    intro st2 d w h2
    rw [hcy] at h2
    simp only [Option.some.injEq, Prod.mk.injEq] at h2
    rw [← h2.1]
    exact ⟨rfl, rfl, rfl⟩
  · intro s0 rc recvs hconn hexit
    have hp : tcp_client_pass st s0 rc recvs
        = draining (rx_loop (connect_step st s0 rc).1 recvs).st := by
      unfold tcp_client_pass
      simp [hconn, hexit]
    rw [hp]
    exact ⟨rfl, rfl, rfl, rfl⟩
  · rw [p1]
  · rw [p1]; rfl
  · rw [p2]
  · rw [p2]; rfl

/-- A streaming session on socket 5: a failed `send()` in the sampling cycle
invalidates it, a zero-length read drains it, and a reconnect on socket 3
leaves `sending` false. -/
theorem invalidation_then_reconnect_witness :
    (0 : Int) ≤ 3
      ∧ (connect_step (draining ⟨400, 5, true, true⟩) 3 0).1.tcp_connected = true
      ∧ (connect_step (draining ⟨400, 5, true, true⟩) 3 0).1.sending = false
      ∧ sensor_cycle ⟨400, 5, true, true⟩ esp_err_t.ESP_OK "x\n".toList [-1]
          = some (sensor_invalidate ⟨400, 5, true, true⟩, 0, [])
      ∧ tcp_client_pass ⟨400, -1, false, true⟩ 5 0 [⟨0, [], 0⟩]
          = draining (rx_loop (connect_step ⟨400, -1, false, true⟩ 5 0).1 [⟨0, [], 0⟩]).st :=
  ⟨by decide,
   (invalidation_then_reconnect ⟨400, 5, true, true⟩ 3 (by decide)).2.2.2.2.2.2.2.1,
   (invalidation_then_reconnect ⟨400, 5, true, true⟩ 3 (by decide)).2.2.2.2.2.2.2.2.1,
   ((invalidation_then_reconnect ⟨400, 5, true, true⟩ 3 (by decide)).2.2.2.2.2.2.2.2.2.2.2.2.2.2.1
      "x\n".toList [-1] [] rfl rfl (by decide)).1,
   ((invalidation_then_reconnect ⟨400, -1, false, true⟩ 3
      (by decide)).2.2.2.2.2.2.2.2.2.2.2.2.2.2.2.1 5 0 [⟨0, [], 0⟩] (by decide) (by decide)).1⟩

/-! ## The connection invariant -/

/-- A command never changes `sockfd` or `tcp_connected`. -/
theorem handle_command_conn (st : Session) (cmd : Option (List Char)) :
    (handle_command st cmd).1.sockfd = st.sockfd
      ∧ (handle_command st cmd).1.tcp_connected = st.tcp_connected := by
  cases cmd with
  | none => exact ⟨rfl, rfl⟩
  | some c =>
    unfold handle_command
    simp only []
    split_ifs <;> exact ⟨rfl, rfl⟩

/-- Every step preserves the connection invariant. -/
theorem step_conn_inv (st : Session) (ev : Event) (h : conn_inv st) : conn_inv (step st ev) := by
  cases ev with
  | connect s rc =>
    unfold conn_inv step connect_step
    simp only []
    split_ifs with h1 h2
    · exact h
    · exact h
    · simp only [true_iff]
      exact not_lt.mp h1
  | drain => simp [conn_inv, step, draining]
  | sensor_send_failed => simp [conn_inv, step, sensor_invalidate]
  | command cmd =>
    unfold conn_inv step
    rw [(handle_command_conn st cmd).1, (handle_command_conn st cmd).2]
    exact h

/-- An invariant of every step that holds at the start holds after any run. -/
theorem foldl_step_inv (P : Session → Prop) (hstep : ∀ st ev, P st → P (step st ev))
    (evs : List Event) : ∀ st, P st → P (evs.foldl step st) := by
  induction evs with
  | nil => intro st h; exact h
  | cons ev rest ih => intro st h; exact ih (step st ev) (hstep st ev h)

/-- C9: in every session reached from the initial one by connect steps, Draining
steps, sensor-task invalidations and handled commands, `tcp_connected` is true
exactly when `sockfd >= 0`; in particular it is never true with `sockfd = -1`
and never false with a live socket. -/
theorem connected_iff_socket (evs : List Event) :
    ((run evs).tcp_connected = true ↔ 0 ≤ (run evs).sockfd)
      ∧ ¬ ((run evs).tcp_connected = true ∧ (run evs).sockfd = -1)
      ∧ ¬ ((run evs).tcp_connected = false ∧ 0 ≤ (run evs).sockfd) := by
  have inv : conn_inv (run evs) :=
    foldl_step_inv conn_inv step_conn_inv evs init_state (by simp [conn_inv, init_state])
  unfold conn_inv at inv
  refine ⟨inv, ?_, ?_⟩
  · rintro ⟨hc, hs⟩
    have := inv.mp hc
    omega
  · rintro ⟨hc, hs⟩
    have := inv.mpr hs
    simp [hc] at this

/-! ## The command handler -/

/-- C6: for every non-null line `handle_command` hands exactly one reply to
`send_all`; the reply ends in a newline and is one of `SRATE_OK`, `SRATE_ERR`,
`STARTED`, `STOPPED`, `PONG`, `UNK_CMD`; `PING` gives `PONG` and leaves the
session as it is; a line that neither begins with `SRATE ` nor is `START`,
`STOP` or `PING` gives `UNK_CMD` and leaves the session as it is. -/
theorem handle_command_reply (st : Session) (cmd : List Char) :
    (∃ r, (handle_command st (some cmd)).2 = some r
        ∧ r ∈ ["SRATE_OK\n".toList, "SRATE_ERR\n".toList, "STARTED\n".toList,
                "STOPPED\n".toList, "PONG\n".toList, "UNK_CMD\n".toList]
        ∧ r.getLast? = some '\n')
      ∧ handle_command st (some "PING".toList) = (st, some "PONG\n".toList)
      ∧ (cmd.take 6 ≠ "SRATE ".toList → cmd ≠ "START".toList → cmd ≠ "STOP".toList →
          cmd ≠ "PING".toList → handle_command st (some cmd) = (st, some "UNK_CMD\n".toList)) := by
  refine ⟨?_, ?_, ?_⟩
  · unfold handle_command
    simp only []
    split_ifs
    · exact ⟨_, rfl, by decide, by decide⟩
    · exact ⟨_, rfl, by decide, by decide⟩
    · exact ⟨_, rfl, by decide, by decide⟩
    · exact ⟨_, rfl, by decide, by decide⟩
    · exact ⟨_, rfl, by decide, by decide⟩
    · exact ⟨_, rfl, by decide, by decide⟩
  · have h1 : ("PING".toList).take 6 ≠ "SRATE ".toList := by decide
    have h2 : "PING".toList ≠ "START".toList := by decide
    have h3 : "PING".toList ≠ "STOP".toList := by decide
    simp [handle_command, h1, h2, h3]
  · intro h1 h2 h3 h4
    unfold handle_command
    simp only []
    rw [if_neg h1, if_neg h2, if_neg h3, if_neg h4]

/-- The line `HELLO` is answered `UNK_CMD` and leaves the session as it is. -/
theorem handle_command_reply_witness :
    handle_command init_state (some "HELLO".toList) = (init_state, some "UNK_CMD\n".toList) :=
  (handle_command_reply init_state "HELLO".toList).2.2
    (by decide) (by decide) (by decide) (by decide)

/-! ## The receive loop on read errors -/

/-- While connected, any run of negative `recv` results leaves the receive loop
running with the session unchanged. -/
theorem rx_loop_negative (st : Session) (hc : st.tcp_connected = true)
    (recvs : List RecvResult) (hneg : ∀ res ∈ recvs, res.r < 0) :
    rx_loop st recvs = { st := st, lines := [], replies := [], exit := false } := by
  induction recvs with
  | nil => simp [rx_loop, hc]
  | cons res rest ih =>
    have hr : res.r < 0 := hneg res (List.mem_cons_self _ _)
    have h1 : ¬ res.r > 0 := by omega
    have h2 : ¬ res.r = 0 := by omega
    have hit : rx_iteration st res = { st := st, lines := [], replies := [], exit := false } := by
      simp [rx_iteration, h1, h2]
    have ih2 := ih (fun r hr2 => hneg r (List.mem_cons_of_mem _ hr2))
    rw [rx_loop]
    simp [hc, hit, ih2]

/-- A zero-length read ends the receive loop and the Draining step follows. -/
theorem rx_loop_closed (st : Session) (hc : st.tcp_connected = true) (res : RecvResult)
    (h0 : res.r = 0) (rest : List RecvResult) :
    rx_loop st (res :: rest) = { st := st, lines := [], replies := [], exit := true } := by
  have h1 : ¬ res.r > 0 := by omega
  have hit : rx_iteration st res = { st := st, lines := [], replies := [], exit := true } := by
    simp [rx_iteration, h1, h0]
  rw [rx_loop]
  simp [hc, hit]

/-- C5, the code at a hard read error: with the session connected on socket 3, a
`recv` that returns -1 with `errno = ECONNRESET` is treated like a timeout: the
iteration does not leave the loop, the loop is still running afterwards, and
the pass of `tcp_client_task` has not run the Draining step (`tcp_connected`
is still true, `sockfd` is still 3), whereas a zero-length read does drain. -/
theorem hard_read_error_keeps_connected :
    (rx_iteration ⟨400, 3, true, false⟩ ⟨-1, [], ECONNRESET⟩).exit = false
      ∧ rx_iteration ⟨400, 3, true, false⟩ ⟨-1, [], ECONNRESET⟩
          = rx_iteration ⟨400, 3, true, false⟩ ⟨-1, [], EAGAIN⟩
      ∧ rx_loop ⟨400, 3, true, false⟩ [⟨-1, [], ECONNRESET⟩, ⟨-1, [], ECONNRESET⟩]
          = ⟨⟨400, 3, true, false⟩, [], [], false⟩
      ∧ tcp_client_pass init_state 3 0 [⟨-1, [], ECONNRESET⟩] = ⟨400, 3, true, false⟩
      ∧ tcp_client_pass init_state 3 0 [⟨0, [], 0⟩] = ⟨400, -1, false, false⟩ := by
  decide

/-! ## The SRATE command -/

/-- A `send()` that accepts the whole buffer at once ends `send_all`'s loop with
`ESP_OK` and the buffer on the wire. -/
theorem send_loop_all_at_once (buf : List Char) (rest : List Int) :
    send_loop buf 0 [] ((buf.length : Int) :: rest) = some (esp_err_t.ESP_OK, buf) := by
  by_cases h : 0 < buf.length
  · have hneg : ¬ ((buf.length : Int) < 0) := by omega
    rw [send_loop, if_pos h, if_neg hneg]
    have hw : [] ++ (buf.drop 0).take (buf.length : Int).toNat = buf := by simp
    rw [hw]
    cases rest with
    | nil => simp [send_loop]
    | cons a r => simp [send_loop]
  · have hb : buf = [] := List.length_eq_zero.mp (by omega)
    subst hb
    simp [send_loop]

/-- What `send_all` does with a buffer: nothing when the session is not connected,
the send loop otherwise. -/
theorem send_all_guard (st : Session) (buf : List Char) (sends : List Int) :
    send_all st buf sends
      = (if st.tcp_connected = true ∧ 0 ≤ st.sockfd then send_loop buf 0 [] sends
          else some (esp_err_t.ESP_FAIL, [])) := by
  unfold send_all
  by_cases hc : st.tcp_connected = true
  · by_cases hs : st.sockfd < 0
    · have hn : ¬ (0 ≤ st.sockfd) := by omega
      simp [hc, hs, hn]
    · have hp : 0 ≤ st.sockfd := by omega
      simp [hc, hs, hp]
  · simp [hc]

/-- The replies to `START` and `STOP` and what `send_all` does with them: for every
session the command changes `sending` and hands its reply to `send_all`; the
reply reaches the wire through the send loop when `tcp_connected` is true and
`sockfd >= 0` (whole, when `send()` accepts it at once), and `send_all` returns
at its guard otherwise. -/
theorem start_stop_replies (st : Session) (sends rest : List Int) :
    handle_command st (some "START".toList)
        = ({ st with sending := true }, some "STARTED\n".toList)
      ∧ handle_command { st with sending := true } (some "STOP".toList)
        = ({ st with sending := false }, some "STOPPED\n".toList)
      ∧ handle_command_wire st (some "START".toList) sends
        = (if st.tcp_connected = true ∧ 0 ≤ st.sockfd
            then (send_loop "STARTED\n".toList 0 [] sends).map Prod.snd else some [])
      ∧ handle_command_wire { st with sending := true } (some "STOP".toList) sends
        = (if st.tcp_connected = true ∧ 0 ≤ st.sockfd
            then (send_loop "STOPPED\n".toList 0 [] sends).map Prod.snd else some [])
      ∧ send_loop "STARTED\n".toList 0 [] (8 :: rest)
        = some (esp_err_t.ESP_OK, "STARTED\n".toList)
      ∧ send_loop "STOPPED\n".toList 0 [] (8 :: rest)
        = some (esp_err_t.ESP_OK, "STOPPED\n".toList)
      ∧ handle_command st (some "STOP".toList)
        = ({ st with sending := false }, some "STOPPED\n".toList)
      ∧ handle_command { st with sending := false } (some "STOP".toList)
        = ({ st with sending := false }, some "STOPPED\n".toList) := by
  have hstart : ∀ s : Session, handle_command s (some "START".toList)
      = ({ s with sending := true }, some "STARTED\n".toList) := by
    intro s
    have h1 : ("START".toList).take 6 ≠ "SRATE ".toList := by decide
    unfold handle_command
    simp only []
    rw [if_neg h1]
    exact if_pos trivial
  have hstop : ∀ s : Session, handle_command s (some "STOP".toList)
      = ({ s with sending := false }, some "STOPPED\n".toList) := by
    intro s
    have h1 : ("STOP".toList).take 6 ≠ "SRATE ".toList := by decide
    have h2 : "STOP".toList ≠ "START".toList := by decide
    unfold handle_command
    simp only []
    rw [if_neg h1, if_neg h2]
    exact if_pos trivial
  refine ⟨hstart st, hstop _, ?_, ?_, ?_, ?_, hstop st, hstop _⟩
  · unfold handle_command_wire
    rw [hstart st]
    simp only []
    rw [send_all_guard]
    split_ifs <;> rfl
  · unfold handle_command_wire
    rw [hstop]
    simp only []
    rw [send_all_guard]
    split_ifs <;> rfl
  · exact send_loop_all_at_once "STARTED\n".toList rest
  · exact send_loop_all_at_once "STOPPED\n".toList rest

/-- C3: for every session, connected or not, handling `START` and then `STOP`
hands the replies `STARTED` then `STOPPED` to `send_all` and ends with
`sending = false`; handling `STOP` twice hands two `STOPPED` replies to
`send_all` and ends in exactly the session reached by handling `STOP` once,
which is the starting session with `sending = false` (`Fodr`, `tcp_connected`
and `sockfd` unchanged). -/
theorem start_stop_sequence (st : Session) :
    handle_lines st ["START".toList, "STOP".toList]
        = ({ st with sending := false }, ["STARTED\n".toList, "STOPPED\n".toList])
      ∧ (handle_command (handle_command st (some "START".toList)).1 (some "STOP".toList)).2
        = some "STOPPED\n".toList
      ∧ (handle_command st (some "START".toList)).2 = some "STARTED\n".toList
      ∧ (handle_lines st ["START".toList, "STOP".toList]).1.sending = false
      ∧ handle_lines st ["STOP".toList, "STOP".toList]
        = ({ st with sending := false }, ["STOPPED\n".toList, "STOPPED\n".toList])
      ∧ handle_lines st ["STOP".toList]
        = ({ st with sending := false }, ["STOPPED\n".toList])
      ∧ (handle_lines st ["STOP".toList, "STOP".toList]).1 = (handle_lines st ["STOP".toList]).1
      ∧ (handle_lines st ["STOP".toList, "STOP".toList]).1.Fodr = st.Fodr
      ∧ (handle_lines st ["STOP".toList, "STOP".toList]).1.tcp_connected = st.tcp_connected
      ∧ (handle_lines st ["STOP".toList, "STOP".toList]).1.sockfd = st.sockfd := by
  have h := start_stop_replies st [] []
  have hstart := h.1
  have hstop1 := h.2.1
  have hstop := h.2.2.2.2.2.2.1
  have hstop2 := h.2.2.2.2.2.2.2
  have e1 : handle_lines st ["START".toList, "STOP".toList]
      = ({ st with sending := false }, ["STARTED\n".toList, "STOPPED\n".toList]) := by
    simp only [handle_lines, hstart, hstop1]
    rfl
  have e2 : handle_lines st ["STOP".toList, "STOP".toList]
      = ({ st with sending := false }, ["STOPPED\n".toList, "STOPPED\n".toList]) := by
    simp only [handle_lines, hstop, hstop2]
    rfl
  have e3 : handle_lines st ["STOP".toList]
      = ({ st with sending := false }, ["STOPPED\n".toList]) := by
    simp only [handle_lines, hstop]
    rfl
  refine ⟨e1, ?_, ?_, ?_, e2, e3, ?_, ?_, ?_, ?_⟩
  · rw [hstart, hstop1]
  · rw [hstart]
  · rw [e1]
  · rw [e2, e3]
  · rw [e2]
  · rw [e2]
  · rw [e2]

/-! ## The sample rate invariant -/

/-- A step changes `Fodr` only when it handles an `SRATE` line with an allowed
value, and then `Fodr` becomes that value. -/
theorem fodr_change (st : Session) (ev : Event) (h : (step st ev).Fodr ≠ st.Fodr) :
    ∃ cmd, ev = Event.command (some cmd) ∧ cmd.take 6 = "SRATE ".toList
      ∧ (atoi (cmd.drop 6) = 100 ∨ atoi (cmd.drop 6) = 400 ∨ atoi (cmd.drop 6) = 1600)
      ∧ ((step st ev).Fodr : Int) = atoi (cmd.drop 6) := by
  cases ev with
  | connect s rc =>
    exfalso; apply h
    unfold step connect_step
    simp only []
    split_ifs <;> rfl
  | drain => exact absurd rfl h
  | sensor_send_failed => exact absurd rfl h
  | command cmd =>
    cases cmd with
    | none => exact absurd rfl h
    | some c =>
      refine ⟨c, rfl, ?_⟩
      unfold step handle_command at h ⊢
      simp only [] at h ⊢
      split_ifs at h ⊢ with h1 h2 h3 h4 h5
      · refine ⟨h1, h2, ?_⟩
        rcases h2 with e | e | e <;> rw [e] <;> rfl
      · exact absurd rfl h
      · exact absurd rfl h
      · exact absurd rfl h
      · exact absurd rfl h
      · exact absurd rfl h

/-- Every step keeps the sample rate among the allowed values. -/
theorem step_rate_inv (st : Session) (ev : Event) (h : rate_inv st) : rate_inv (step st ev) := by
  by_cases hc : (step st ev).Fodr = st.Fodr
  · unfold rate_inv at h ⊢
    rw [hc]; exact h
  · obtain ⟨cmd, _, _, hv, hf⟩ := fodr_change st ev hc
    unfold rate_inv
    omega

/-- C10: in every session reached from the initial one by handled commands and
connection events `Fodr` is 100, 400 or 1600, so it is positive, never 0, and
the sampling loop waits `1000 / Fodr` (at least 1) and never takes the
`Fodr == 0` fallback; and a step changes `Fodr` only when it handles an `SRATE`
line with an allowed value, which becomes the new `Fodr`. -/
theorem rate_always_allowed (evs : List Event) (ev : Event) :
    ((run evs).Fodr = 100 ∨ (run evs).Fodr = 400 ∨ (run evs).Fodr = 1600)
      ∧ 0 < (run evs).Fodr ∧ ¬ (run evs).Fodr = 0
      ∧ sample_wait_ms (run evs).Fodr
          = (if 1000 / (run evs).Fodr = 0 then 1 else 1000 / (run evs).Fodr)
      ∧ ((step (run evs) ev).Fodr ≠ (run evs).Fodr →
          ∃ cmd, ev = Event.command (some cmd) ∧ cmd.take 6 = "SRATE ".toList
            ∧ (atoi (cmd.drop 6) = 100 ∨ atoi (cmd.drop 6) = 400 ∨ atoi (cmd.drop 6) = 1600)
            ∧ ((step (run evs) ev).Fodr : Int) = atoi (cmd.drop 6)) := by
  have inv : rate_inv (run evs) :=
    foldl_step_inv rate_inv step_rate_inv evs init_state (by simp [rate_inv, init_state])
  have hpos : 0 < (run evs).Fodr := by
    unfold rate_inv at inv; omega
  refine ⟨inv, hpos, by omega, ?_, fodr_change (run evs) ev⟩
  simp [sample_wait_ms, hpos]

/-- After `SRATE 100`, the step that changes the rate is the command `SRATE 1600`. -/
theorem rate_always_allowed_witness :
    ∃ cmd, Event.command (some "SRATE 1600".toList) = Event.command (some cmd)
      ∧ cmd.take 6 = "SRATE ".toList
      ∧ (atoi (cmd.drop 6) = 100 ∨ atoi (cmd.drop 6) = 400 ∨ atoi (cmd.drop 6) = 1600)
      ∧ ((step (run [Event.command (some "SRATE 100".toList)])
            (Event.command (some "SRATE 1600".toList))).Fodr : Int) = atoi (cmd.drop 6) :=
  (rate_always_allowed [Event.command (some "SRATE 100".toList)]
    (Event.command (some "SRATE 1600".toList))).2.2.2.2 (by decide)

/-! ## Line splitting across reads -/

/-- The end of the string yields no token. -/
theorem strtok_r_nil : strtok_r [] = none := rfl

/-- A leading delimiter is skipped. -/
theorem strtok_r_delim (d : Char) (s : List Char) (hd : is_delim d = true) :
    strtok_r (d :: s) = strtok_r s := by
  unfold strtok_r
  rw [List.dropWhile_cons_of_pos hd]

/-- A string that starts with a character of a line yields the token up to the next
delimiter and continues after that delimiter. -/
theorem strtok_r_char (c : Char) (s : List Char) (hc : is_delim c = false) :
    strtok_r (c :: s)
      = some (c :: s.takeWhile (fun x => !is_delim x),
              (s.dropWhile (fun x => !is_delim x)).drop 1) := by
  unfold strtok_r
  rw [List.dropWhile_cons_of_neg (by simp [hc])]
  simp only []
  rw [List.takeWhile_cons_of_pos (by simp [hc]), List.dropWhile_cons_of_pos (by simp [hc])]

/-- Every `strtok_r` call that returns a token shortens the rest of the string. -/
theorem strtok_r_rest_lt (s line rest : List Char) (h : strtok_r s = some (line, rest)) :
    rest.length < s.length := by
  induction s with
  | nil => simp [strtok_r_nil] at h
  | cons c t ih =>
    by_cases hc : is_delim c = true
    · rw [strtok_r_delim c t hc] at h
      have := ih h
      simp only [List.length_cons]
      omega
    · have hc2 : is_delim c = false := by simpa using hc
      rw [strtok_r_char c t hc2] at h
      simp only [Option.some.injEq, Prod.mk.injEq] at h
      have hl := (List.dropWhile_sublist (fun x => !is_delim x) (l := t)).length_le
      rw [← h.2]
      simp only [List.length_drop, List.length_cons]
      omega

/-- The line loop gives the same lines for any two bounds above the length of the
string, and it gives a result. -/
theorem rx_lines_fuel (f1 : Nat) :
    ∀ f2 s, s.length < f1 → s.length < f2 →
      rx_lines f1 s = rx_lines f2 s ∧ (rx_lines f1 s).isSome = true := by
  induction f1 with
  | zero => intro f2 s h1; omega
  | succ f1 ih =>
    intro f2 s h1 h2
    cases f2 with
    | zero => omega
    | succ f2 =>
      simp only [rx_lines]
      cases hs : strtok_r s with
      | none => simp
      | some p =>
        obtain ⟨line, rest⟩ := p
        have hlt := strtok_r_rest_lt s line rest hs
        obtain ⟨e, hsome⟩ := ih f2 rest (by omega) (by omega)
        simp only []
        refine ⟨by rw [e], ?_⟩
        simpa using hsome

/-- The line loop terminates: with a bound above the length of the string it
returns the lines of `line_loop`. -/
theorem rx_lines_total (fuel : Nat) (s : List Char) (h : s.length < fuel) :
    rx_lines fuel s = some (line_loop s) := by
  have h1 := rx_lines_fuel fuel (s.length + 1) s h (by omega)
  unfold line_loop
  rw [← h1.1]
  cases hr : rx_lines fuel s with
  | none => rw [hr] at h1; simp at h1
  | some ls => rfl

/-- The empty string has no lines. -/
theorem line_loop_nil : line_loop [] = [] := rfl

/-- A leading delimiter adds no line. -/
theorem line_loop_delim (d : Char) (s : List Char) (hd : is_delim d = true) :
    line_loop (d :: s) = line_loop s := by
  have h1 : rx_lines ((d :: s).length + 1) (d :: s) = rx_lines ((d :: s).length + 1) s := by
    simp only [rx_lines, strtok_r_delim d s hd]
  have h2 := rx_lines_total ((d :: s).length + 1) s (by simp only [List.length_cons]; omega)
  unfold line_loop
  rw [h1, h2]
  rfl

/-- A string that starts with a character of a line has that line first. -/
theorem line_loop_char (c : Char) (s : List Char) (hc : is_delim c = false) :
    line_loop (c :: s)
      = (c :: s.takeWhile (fun x => !is_delim x))
          :: line_loop ((s.dropWhile (fun x => !is_delim x)).drop 1) := by
  have hl := (List.dropWhile_sublist (fun x => !is_delim x) (l := s)).length_le
  have h2 := rx_lines_total (s.length + 1) ((s.dropWhile (fun x => !is_delim x)).drop 1)
    (by simp only [List.length_drop]; omega)
  have h1 : rx_lines ((c :: s).length + 1) (c :: s)
      = (rx_lines (s.length + 1) ((s.dropWhile (fun x => !is_delim x)).drop 1)).map
          (fun ls => (c :: s.takeWhile (fun x => !is_delim x)) :: ls) := by
    simp only [List.length_cons]
    rw [rx_lines, strtok_r_char c s hc]
  rw [h2] at h1
  show (rx_lines ((c :: s).length + 1) (c :: s)).getD [] = _
  rw [h1]
  rfl

/-- A run of characters without delimiter, followed by a delimiter, is taken whole. -/
theorem takeWhile_word (w : List Char) (hw : ∀ x ∈ w, is_delim x = false) (d : Char)
    (hd : is_delim d = true) (s : List Char) :
    (w ++ d :: s).takeWhile (fun x => !is_delim x) = w
      ∧ (w ++ d :: s).dropWhile (fun x => !is_delim x) = d :: s := by
  induction w with
  | nil => simp [hd]
  | cons c t ih =>
    have hc : is_delim c = false := hw c (List.mem_cons_self _ _)
    have := ih (fun x hx => hw x (List.mem_cons_of_mem _ hx))
    simp [hc, this.1, this.2]

/-- A run of characters without delimiter is taken whole. -/
theorem takeWhile_word_end (w : List Char) (hw : ∀ x ∈ w, is_delim x = false) :
    w.takeWhile (fun x => !is_delim x) = w ∧ w.dropWhile (fun x => !is_delim x) = [] := by
  induction w with
  | nil => simp
  | cons c t ih =>
    have hc : is_delim c = false := hw c (List.mem_cons_self _ _)
    have := ih (fun x hx => hw x (List.mem_cons_of_mem _ hx))
    simp [hc, this.1, this.2]

/-- A word closed by a delimiter is one line, and the lines after it follow. -/
theorem line_loop_word (w : List Char) (hw : ∀ x ∈ w, is_delim x = false) (d : Char)
    (hd : is_delim d = true) (s : List Char) :
    line_loop (w ++ d :: s) = line_loop w ++ line_loop s := by
  cases w with
  | nil => simpa [line_loop_nil] using line_loop_delim d s hd
  | cons c t =>
    have hc : is_delim c = false := hw c (List.mem_cons_self _ _)
    have ht : ∀ x ∈ t, is_delim x = false := fun x hx => hw x (List.mem_cons_of_mem _ hx)
    have h1 := takeWhile_word t ht d hd s
    have h2 := takeWhile_word_end t ht
    rw [List.cons_append, line_loop_char c _ hc, line_loop_char c t hc, h1.1, h1.2, h2.1, h2.2]
    simp [line_loop_nil]

/-- A delimiter inside the string splits the lines of the string: the lines before
it, then the lines after it. -/
theorem line_loop_split (a : List Char) :
    ∀ (w : List Char), (∀ x ∈ w, is_delim x = false) → ∀ (d : Char), is_delim d = true →
      ∀ b, line_loop (w ++ a ++ d :: b) = line_loop (w ++ a) ++ line_loop b := by
  induction a with
  | nil =>
    intro w hw d hd b
    simpa using line_loop_word w hw d hd b
  | cons x t ih =>
    intro w hw d hd b
    by_cases hx : is_delim x = true
    · have e1 : w ++ x :: t ++ d :: b = w ++ x :: (t ++ d :: b) := by simp
      have i0 := ih [] (by simp) d hd b
      simp only [List.nil_append] at i0
      rw [e1, line_loop_word w hw x hx, line_loop_word w hw x hx, i0, List.append_assoc]
    · have hx2 : is_delim x = false := by simpa using hx
      have hw2 : ∀ y ∈ w ++ [x], is_delim y = false := by
        intro y hy
        rcases List.mem_append.mp hy with h | h
        · exact hw y h
        · simp only [List.mem_singleton] at h
          rw [h]; exact hx2
      have i1 := ih (w ++ [x]) hw2 d hd b
      simpa using i1

/-- A cut with a line-ending character on one of its sides does not change the
lines: the lines of the two pieces, in order, are the lines of the whole. -/
theorem line_loop_append (a b : List Char) (h : ends_line a = true ∨ starts_line b = true) :
    line_loop (a ++ b) = line_loop a ++ line_loop b := by
  rcases h with h | h
  · unfold ends_line at h
    cases hl : a.getLast? with
    | none => rw [hl] at h; simp at h
    | some d =>
      rw [hl] at h
      simp only [] at h
      obtain ⟨a2, ha⟩ := List.getLast?_eq_some_iff.mp hl
      have s1 := line_loop_split a2 [] (by simp) d h b
      have s2 := line_loop_split a2 [] (by simp) d h []
      simp only [List.nil_append, line_loop_nil, List.append_nil] at s1 s2
      rw [ha, List.append_assoc, List.singleton_append, s1, s2]
  · cases b with
    | nil => simp [starts_line] at h
    | cons d t =>
      simp only [starts_line] at h
      have s1 := line_loop_split a [] (by simp) d h t
      simp only [List.nil_append] at s1
      rw [s1, line_loop_delim d t h]

/-- A buffer without NUL is its own C string. -/
theorem cstr_of_no_nul (r : List Char) (h : NUL ∉ r) : cstr r = r := by
  unfold cstr
  rw [List.takeWhile_eq_self_iff]
  intro x hx
  simp only [bne_iff_ne, ne_eq]
  intro e
  exact h (e ▸ hx)

/-- Handling lines never changes `tcp_connected`. -/
theorem handle_lines_connected (lines : List (List Char)) :
    ∀ st : Session, (handle_lines st lines).1.tcp_connected = st.tcp_connected := by
  induction lines with
  | nil => intro st; rfl
  | cons l rest ih =>
    intro st
    simp only [handle_lines]
    rw [ih, (handle_command_conn st (some l)).2]

/-- While connected, successive non-empty reads keep the receive loop running, and
the lines it passes to `handle_command` are the lines of each read in turn. -/
theorem rx_loop_lines (reads : List (List Char)) (hne : ∀ r ∈ reads, r ≠ []) :
    ∀ st : Session, st.tcp_connected = true →
      (rx_loop st (reads.map recv_ok)).lines = dispatched reads
        ∧ (rx_loop st (reads.map recv_ok)).exit = false := by
  induction reads with
  | nil => intro st hc; simp [rx_loop, dispatched, hc]
  | cons a rest ih =>
    intro st hc
    have ha : a ≠ [] := hne a (List.mem_cons_self _ _)
    have hpos : (recv_ok a).r > 0 := by
      have : 0 < a.length := List.length_pos.mpr ha
      simp only [recv_ok]
      omega
    have htake : (recv_ok a).data.take (recv_ok a).r.toNat = a := by
      simp [recv_ok]
    have hit : rx_iteration st (recv_ok a)
        = { st := (handle_lines st (read_lines a)).1, lines := read_lines a,
            replies := (handle_lines st (read_lines a)).2, exit := false } := by
      unfold rx_iteration
      rw [if_pos hpos, htake]
    have hc2 : (handle_lines st (read_lines a)).1.tcp_connected = true := by
      rw [handle_lines_connected]; exact hc
    have ih2 := ih (fun r hr => hne r (List.mem_cons_of_mem _ hr)) _ hc2
    rw [List.map_cons, rx_loop]
    simp only [hc, hit, if_true]
    simp [ih2.1, ih2.2, dispatched]

/-- C4, the claim at a line split over two reads: in a connected session the
reads `PI` and `NG\n` pass the two lines `PI` and `NG` to `handle_command`
(answered `UNK_CMD` twice), while the same bytes in one read pass the one line
`PING` (answered `PONG`); so the lines dispatched are not always those of the
stream read at once. -/
theorem split_line_dispatched_in_parts :
    (rx_loop ⟨400, 3, true, false⟩ [recv_ok "PI".toList, recv_ok "NG\n".toList]).lines
        = ["PI".toList, "NG".toList]
      ∧ (rx_loop ⟨400, 3, true, false⟩ [recv_ok "PI".toList, recv_ok "NG\n".toList]).replies
        = ["UNK_CMD\n".toList, "UNK_CMD\n".toList]
      ∧ (rx_loop ⟨400, 3, true, false⟩ [recv_ok "PING\n".toList]).lines = ["PING".toList]
      ∧ (rx_loop ⟨400, 3, true, false⟩ [recv_ok "PING\n".toList]).replies = ["PONG\n".toList]
      ∧ ¬ ∀ reads : List (List Char), (∀ r ∈ reads, r ≠ [] ∧ r.length ≤ 127) →
          (rx_loop ⟨400, 3, true, false⟩ (reads.map recv_ok)).lines
            = (rx_loop ⟨400, 3, true, false⟩ [recv_ok reads.flatten]).lines := by
  refine ⟨by decide, by decide, by decide, by decide, ?_⟩
  intro h
  have := h ["PI".toList, "NG\n".toList] (by decide)
  revert this
  decide

/-- C4 as amended: the receive loop tokenises every read on its own and carries
nothing over; in a connected session, for non-empty reads without NUL in which
every cut has a line-ending character just before or just after it, the lines
passed to `handle_command` are the lines of the whole stream read at once. -/
theorem rx_loop_lines_of_line_aligned (st : Session) (hc : st.tcp_connected = true)
    (reads : List (List Char)) (hne : ∀ r ∈ reads, r ≠ [])
    (hnul : ∀ r ∈ reads, NUL ∉ r) (hcut : line_aligned reads = true) :
    (rx_loop st (reads.map recv_ok)).lines = read_lines reads.flatten := by
  rw [(rx_loop_lines reads hne st hc).1]
  have hflat : NUL ∉ reads.flatten := by
    intro hm
    obtain ⟨l, hl, hx⟩ := List.mem_flatten.mp hm
    exact hnul l hl hx
  unfold read_lines
  rw [cstr_of_no_nul _ hflat]
  clear hflat hne
  induction reads with
  | nil => rfl
  | cons a rest ih =>
    have ha : cstr a = a := cstr_of_no_nul a (hnul a (List.mem_cons_self _ _))
    have hrest : ∀ r ∈ rest, NUL ∉ r := fun r hr => hnul r (List.mem_cons_of_mem _ hr)
    cases rest with
    | nil => simp [dispatched, read_lines, ha]
    | cons b more =>
      simp only [line_aligned, Bool.and_eq_true, Bool.or_eq_true] at hcut
      have ih2 := ih hrest hcut.2
      have hside : ends_line a = true ∨ starts_line (b :: more).flatten = true := by
        rcases hcut.1 with h | h
        · exact Or.inl h
        · right
          cases b with
          | nil => simp [starts_line] at h
          | cons d t => simpa [starts_line] using h
      have e : dispatched (a :: b :: more) = line_loop a ++ dispatched (b :: more) := by
        simp [dispatched, read_lines, ha]
      rw [e, ih2]
      simp only [List.flatten_cons] at hside ⊢
      rw [line_loop_append a _ hside]

/-- The reads `PING\n` and `START\n`, cut at a line end, pass `PING` then `START`. -/
theorem rx_loop_lines_of_line_aligned_witness :
    (rx_loop ⟨400, 3, true, false⟩ (["PING\n".toList, "START\n".toList].map recv_ok)).lines
      = read_lines ["PING\n".toList, "START\n".toList].flatten :=
  rx_loop_lines_of_line_aligned ⟨400, 3, true, false⟩ rfl ["PING\n".toList, "START\n".toList]
    (by decide) (by decide) (by decide)

end BmiTcp
